import Mathlib

/-!
# Verification of the blog-to-pdf content pipeline

Shallow embedding of `src/python_service/main.py` (the content-extraction,
sanitization, reference-trimming and image-inlining pipeline) and proofs of
the specification claims about it.

Markup trees (BeautifulSoup documents) are modelled by the mutual inductive
`Node` / `NodeList`: a node is either a text node (NavigableString) or an
element (Tag) with a tag name, an ordered attribute list and an ordered
child forest.  A parsed document is a `NodeList` (the top-level children of
the soup object).  Network effects (`requests.get`) are modelled by an
oracle parameter `String → Option HttpResp`: `none` is any fetch failure
(exception or non-success status after `raise_for_status`), `some r` a
successful response.  URL resolution (`urllib.parse.urljoin`) is an opaque
total function parameter.
-/

namespace BlogToPdf

/-! ## Character-list string utilities

Python's `in` substring test, `str.strip`, `str.lower`, `str.endswith` and
`re.search` of a case-insensitive literal alternation are modelled over
`List Char`, which keeps the matching reasoning elementary. -/

/-- `leadsWith pat l` : `pat` is an initial segment of `l`. -/
def leadsWith : List Char → List Char → Bool
  | [], _ => true
  | _ :: _, [] => false
  | p :: ps, c :: cs => p == c && leadsWith ps cs

/-- `charsContain pat l` : `pat` occurs contiguously somewhere inside `l`
(Python's `pat in l`). -/
def charsContain (pat : List Char) : List Char → Bool
  | [] => pat.isEmpty
  | c :: cs => leadsWith pat (c :: cs) || charsContain pat cs

/-- Unanchored substring test on strings: `strContains s pat` models
Python's `pat in s`. -/
def strContains (s pat : String) : Bool :=
  charsContain pat.data s.data

/-- Python's `str.startswith`. -/
def strStartsWith (s pre : String) : Bool :=
  leadsWith pre.data s.data

/-- Python's `str.endswith`. -/
def strEndsWith (s suffix : String) : Bool :=
  leadsWith suffix.data.reverse s.data.reverse

/-- ASCII whitespace recognized by `str.strip` on the inputs at hand. -/
def wsChar (c : Char) : Bool :=
  c == ' ' || c == '\t' || c == '\n' || c == '\r'

/-- `str.strip`: drop whitespace from both ends. -/
def trimChars (l : List Char) : List Char :=
  ((l.dropWhile wsChar).reverse.dropWhile wsChar).reverse

/-- Replace a character by its image in a case table, if present. -/
def lowerLookup : List (Char × Char) → Char → Char
  | [], c => c
  | (u, l) :: rest, c => if c == u then l else lowerLookup rest c

/-- The basic-latin upper-to-lower case table. -/
def caseTable : List (Char × Char) :=
  [('A', 'a'), ('B', 'b'), ('C', 'c'), ('D', 'd'), ('E', 'e'), ('F', 'f'),
   ('G', 'g'), ('H', 'h'), ('I', 'i'), ('J', 'j'), ('K', 'k'), ('L', 'l'),
   ('M', 'm'), ('N', 'n'), ('O', 'o'), ('P', 'p'), ('Q', 'q'), ('R', 'r'),
   ('S', 's'), ('T', 't'), ('U', 'u'), ('V', 'v'), ('W', 'w'), ('X', 'x'),
   ('Y', 'y'), ('Z', 'z')]

/-- `str.lower` on one character (the keyword patterns and reference
phrases are ASCII, so basic-latin lowercasing is the relevant part of
Python's Unicode `str.lower`). -/
def lowerChar (c : Char) : Char :=
  lowerLookup caseTable c

/-- `str.lower`. -/
def lowerChars (l : List Char) : List Char :=
  l.map lowerChar

/-- Case-insensitive unanchored match of a (lowercase) literal pattern
against an attribute value: models `re.compile(pat, re.I).search(v)`. -/
def patMatch (pat : String) (v : String) : Bool :=
  charsContain pat.data (lowerChars v.data)

theorem leadsWith_iff (pat l : List Char) :
    leadsWith pat l = true ↔ ∃ b, l = pat ++ b := by
  induction pat generalizing l with
  | nil => simp [leadsWith]
  | cons p ps ih =>
    cases l with
    | nil => simp [leadsWith]
    | cons c cs =>
      simp only [leadsWith, Bool.and_eq_true, beq_iff_eq, ih]
      constructor
      · rintro ⟨rfl, b, rfl⟩; exact ⟨b, rfl⟩
      · rintro ⟨b, hb⟩
        injection hb with h1 h2
        exact ⟨h1.symm, b, h2⟩

theorem charsContain_iff (pat l : List Char) :
    charsContain pat l = true ↔ ∃ a b, l = a ++ pat ++ b := by
  induction l with
  | nil =>
    simp only [charsContain, List.isEmpty_iff]
    constructor
    · rintro rfl; exact ⟨[], [], rfl⟩
    · rintro ⟨a, b, hab⟩
      rcases List.append_eq_nil.mp (List.append_eq_nil.mp hab.symm).1 with ⟨-, h2⟩
      exact h2
  | cons c cs ih =>
    simp only [charsContain, Bool.or_eq_true, leadsWith_iff, ih]
    constructor
    · rintro (⟨b, hb⟩ | ⟨a, b, hab⟩)
      · exact ⟨[], b, by simpa using hb⟩
      · exact ⟨c :: a, b, by simp [hab]⟩
    · rintro ⟨a, b, hab⟩
      cases a with
      | nil => exact Or.inl ⟨b, by simpa using hab⟩
      | cons a0 as =>
        injection hab with h1 h2
        exact Or.inr ⟨as, b, h2⟩

/-- Occurrence is preserved by extending the searched list on both sides. -/
theorem charsContain_append (pat a b l : List Char)
    (h : charsContain pat l = true) :
    charsContain pat (a ++ l ++ b) = true := by
  rw [charsContain_iff] at h ⊢
  rcases h with ⟨x, y, rfl⟩
  exact ⟨a ++ x, y ++ b, by simp⟩

/-! ## The document tree -/

mutual
/-- A BeautifulSoup node: a NavigableString or a Tag. -/
inductive Node where
  | text (s : String)
  | elem (tag : String) (attrs : List (String × String)) (children : NodeList)
  deriving DecidableEq, Repr

/-- An ordered forest of sibling nodes. -/
inductive NodeList where
  | nil
  | cons (hd : Node) (tl : NodeList)
  deriving DecidableEq, Repr
end

/-- Append of sibling forests. -/
def NodeList.append : NodeList → NodeList → NodeList
  | .nil, l => l
  | .cons n rest, l => .cons n (NodeList.append rest l)

/-- Attribute lookup: `tag.get(name)` / `tag[name]` presence. -/
def getAttr (name : String) (attrs : List (String × String)) : Option String :=
  (attrs.find? (fun kv => kv.1 == name)).map (fun kv => kv.2)

/-- Python truthiness of `tag.get(name)`: present and non-empty. -/
def truthy : Option String → Bool
  | none => false
  | some s => !s.data.isEmpty

mutual
/-- `tag.get_text()`: concatenation of all descendant text, as chars. -/
def textChars : Node → List Char
  | .text s => s.data
  | .elem _ _ cs => textCharsL cs

def textCharsL : NodeList → List Char
  | .nil => []
  | .cons n rest => textChars n ++ textCharsL rest
end

/-! ## Generic removal sweeps

`main.py`'s sanitization passes are loops of the shape
`for element in soup.find_all(criterion): element.decompose()`.
`find_all` snapshots the matches (Tags only) before mutation and
`decompose` deletes a node with its whole subtree.  Since every matching
criterion in the file inspects only a node's own tag name and attributes
(never its children, which may change as siblings are decomposed), the net
effect of one such loop is the top-down filter `removeL p`: drop every node
whose own tag/attributes satisfy `p` (matches nested inside an already
removed match are gone either way), recurse into the survivors.  A whole
pass (nested loops over a keyword list) is `sweepAll` over the predicates
in the source's iteration order. -/

mutual
/-- One `find_all(p)` + `decompose` sweep over a node. -/
def removeN (p : Node → Bool) : Node → Node
  | .text s => .text s
  | .elem t a cs => .elem t a (removeL p cs)

/-- One `find_all(p)` + `decompose` sweep over a forest. -/
def removeL (p : Node → Bool) : NodeList → NodeList
  | .nil => .nil
  | .cons n rest =>
    if p n then removeL p rest else .cons (removeN p n) (removeL p rest)
end

/-- Sequential sweeps, one per predicate, in order. -/
def sweepAll (ps : List (Node → Bool)) (d : NodeList) : NodeList :=
  ps.foldl (fun acc p => removeL p acc) d

/-- `find_all(class_=re.compile(pat, re.I))` match criterion: the node is a
Tag whose `class` attribute value matches the pattern.  (bs4 splits the
class attribute into tokens; for the space-free keywords used here,
matching some token is the same as matching the joined value, so the class
attribute is modelled as its literal string value.) -/
def classMatch (pat : String) : Node → Bool
  | .text _ => false
  | .elem _ attrs _ =>
    match getAttr "class" attrs with
    | some v => patMatch pat v
    | none => false

/-- `find_all(id=re.compile(pat, re.I))` match criterion. -/
def idMatch (pat : String) : Node → Bool
  | .text _ => false
  | .elem _ attrs _ =>
    match getAttr "id" attrs with
    | some v => patMatch pat v
    | none => false

/-- `find_all(name)` match criterion: tag name equality. -/
def tagMatch (name : String) : Node → Bool
  | .text _ => false
  | .elem t _ _ => t == name

/-- `find_all([n1, ..., nk], class_=re.compile(pat, re.I))`. -/
def tagsClassMatch (names : List String) (pat : String) (n : Node) : Bool :=
  names.any (fun t => tagMatch t n) && classMatch pat n

/-- `find_all([n1, ..., nk], id=re.compile(pat, re.I))`. -/
def tagsIdMatch (names : List String) (pat : String) (n : Node) : Bool :=
  names.any (fun t => tagMatch t n) && idMatch pat n

/-! ## Story 3.1: `remove_ads_and_banners` (main.py lines 153-181) -/

/-- The ad keyword table of `remove_ads_and_banners`. -/
def ad_patterns : List String :=
  ["ad", "ads", "advert", "advertisement", "banner", "sponsor",
   "promo", "promotion", "marketing", "adsense", "google-ad"]

/-- `find_all(['script', 'style'])` criterion. -/
def scriptOrStyle (n : Node) : Bool :=
  tagMatch "script" n || tagMatch "style" n

/-- The sweep predicates of `remove_ads_and_banners`, in execution order:
for each pattern a class sweep then an id sweep, and finally the
unconditional script/style sweep. -/
def adPreds : List (Node → Bool) :=
  ad_patterns.flatMap (fun p => [classMatch p, idMatch p]) ++ [scriptOrStyle]

/-- `remove_ads_and_banners` (main.py lines 153-181). -/
def remove_ads_and_banners (d : NodeList) : NodeList :=
  sweepAll adPreds d

/-! ## Story 3.2: `exclude_sidebars_and_comments` (main.py lines 184-212) -/

/-- The distraction keyword table of `exclude_sidebars_and_comments`. -/
def unwanted_patterns : List String :=
  ["sidebar", "side-bar", "navigation", "nav", "menu",
   "comment", "comments", "discussion", "social", "share",
   "footer", "header", "breadcrumb", "widget", "related"]

/-- Sweep predicates of `exclude_sidebars_and_comments`, in execution
order: per pattern a class sweep, an id sweep, and a tag-name sweep. -/
def unwantedPreds : List (Node → Bool) :=
  unwanted_patterns.flatMap (fun p => [classMatch p, idMatch p, tagMatch p])

/-- `exclude_sidebars_and_comments` (main.py lines 184-212). -/
def exclude_sidebars_and_comments (d : NodeList) : NodeList :=
  sweepAll unwantedPreds d

/-- The Sanitizer stage: `remove_ads_and_banners` followed by
`exclude_sidebars_and_comments` (pipeline steps 3 and 4). -/
def sanitizer (d : NodeList) : NodeList :=
  exclude_sidebars_and_comments (remove_ads_and_banners d)

/-! ## Story 2.2: `parse_article_text_and_headings` (main.py lines 58-81) -/

mutual
/-- `soup.find(p)`: first Tag in pre-order document order satisfying `p`
(bs4's `find` with tag/attribute criteria never yields a string). -/
def findN (p : Node → Bool) : Node → Option Node
  | .text _ => none
  | .elem t a cs =>
    if p (.elem t a cs) then some (.elem t a cs) else findL p cs

def findL (p : Node → Bool) : NodeList → Option Node
  | .nil => none
  | .cons n rest =>
    match findN p n with
    | some m => some m
    | none => findL p rest
end

/-- The content-keyword pattern `(post|article|content|entry)` of lines
74-75, as a disjunction of its literal alternatives. -/
def contentKeyMatch (v : String) : Bool :=
  patMatch "post" v || patMatch "article" v || patMatch "content" v ||
    patMatch "entry" v

/-- `find('div', class_=re.compile(r'(post|article|content|entry)', re.I))`
criterion. -/
def divClassContent : Node → Bool
  | .text _ => false
  | .elem t attrs _ =>
    t == "div" &&
      (match getAttr "class" attrs with
       | some v => contentKeyMatch v
       | none => false)

/-- `find('div', id=re.compile(r'(post|article|content|entry)', re.I))`
criterion. -/
def divIdContent : Node → Bool
  | .text _ => false
  | .elem t attrs _ =>
    t == "div" &&
      (match getAttr "id" attrs with
       | some v => contentKeyMatch v
       | none => false)

/-- `parse_article_text_and_headings` (main.py lines 58-81).  The Python
`or` chain takes the first non-`None` find; on a hit the subtree is
re-parsed from its serialization (`BeautifulSoup(str(article), ...)`),
i.e. returned as an independent single-element document; otherwise the
whole document is returned. -/
def parse_article_text_and_headings (d : NodeList) : NodeList :=
  match findL (tagMatch "article") d with
  | some a => .cons a .nil
  | none =>
    match findL (tagMatch "main") d with
    | some a => .cons a .nil
    | none =>
      match findL divClassContent d with
      | some a => .cons a .nil
      | none =>
        match findL divIdContent d with
        | some a => .cons a .nil
        | none => d

/-! ## ReferenceTrimmer (main.py lines 240-258, inside `integrate_pdf_library`)

Sub-rule 1 (lines 241-246): container removal by keyword, ordinary sweeps.

Sub-rule 2 (lines 249-258): for each `h2`/`h3`/`h4` in the pre-order
`find_all` snapshot whose current stripped, lowercased text contains one of
the reference phrases, decompose the heading and then walk
`find_next_sibling()` decomposing each one.  `find_next_sibling()` with no
arguments yields only Tags, so intervening NavigableString siblings are
skipped and survive.  The snapshot is pre-order, so a heading is examined
before anything its own truncation could delete, and a heading decomposed
by an earlier match contributes empty text (no phrase matches) when its
snapshot entry is reached; the net effect is the structural recursion
`truncL`: scan each sibling level left to right, and at the first matching
heading drop it together with every later element sibling, keeping the
later text siblings. -/

/-- The reference-pattern keyword table of lines 241. -/
def reference_patterns : List String :=
  ["reference", "citation", "bibliography", "notes", "external-link",
   "see-also", "footer"]

/-- Sweep predicates of sub-rule 1, in execution order: per pattern a
class sweep over div/section/ol/ul, then an id sweep over div/section. -/
def referencePreds : List (Node → Bool) :=
  reference_patterns.flatMap (fun p =>
    [tagsClassMatch ["div", "section", "ol", "ul"] p,
     tagsIdMatch ["div", "section"] p])

/-- The heading phrases of line 251. -/
def headingPhrases : List (List Char) :=
  ["reference".data, "citation".data, "see also".data, "external link".data,
   "note".data, "bibliography".data, "further reading".data]

/-- Does `heading.get_text().strip().lower()` contain one of the phrases? -/
def phraseHit (text : List Char) : Bool :=
  headingPhrases.any (fun p => charsContain p (lowerChars (trimChars text)))

/-- The line-251 trigger: an `h2`/`h3`/`h4` Tag whose stripped lowered text
contains a reference phrase. -/
def headingTrigger : Node → Bool
  | .text _ => false
  | .elem t _ cs =>
    (t == "h2" || t == "h3" || t == "h4") && phraseHit (textCharsL cs)

/-- The `find_next_sibling()` walk of lines 253-258: decompose every later
element sibling, leave text siblings in place. -/
def dropTagSiblings : NodeList → NodeList
  | .nil => .nil
  | .cons (.text s) rest => .cons (.text s) (dropTagSiblings rest)
  | .cons (.elem _ _ _) rest => dropTagSiblings rest

mutual
/-- Heading-triggered truncation (lines 249-258) on one node. -/
def truncN : Node → Node
  | .text s => .text s
  | .elem t a cs => .elem t a (truncL cs)

/-- Heading-triggered truncation (lines 249-258) on a sibling level. -/
def truncL : NodeList → NodeList
  | .nil => .nil
  | .cons n rest =>
    if headingTrigger n then dropTagSiblings rest
    else .cons (truncN n) (truncL rest)
end

/-- The ReferenceTrimmer stage: container removal (lines 241-246) followed
by heading-triggered truncation (lines 249-258). -/
def reference_trimmer (d : NodeList) : NodeList :=
  truncL (sweepAll referencePreds d)

/-! ## Story 2.3: `preserve_inline_images` (main.py lines 84-150)

`requests.get(url) ... raise_for_status()` on an image URL is the oracle
`fetch : String → Option HttpResp` (`none` for any exception or
non-success status); `urljoin` is the opaque resolver parameter. -/

/-- A successful image response: the `content-type` header (if any) and
the body bytes. -/
structure HttpResp where
  contentType : Option String
  body : List Nat
  deriving DecidableEq, Repr

/-- Standard base64 alphabet. -/
def b64Char (n : Nat) : Char :=
  "ABCDEFGHIJKLMNOPQRSTUVWXYZabcdefghijklmnopqrstuvwxyz0123456789+/".data.getD n 'A'

/-- `base64.b64encode` over a byte list, with padding. -/
def base64Encode : List Nat → List Char
  | [] => []
  | [a] => [b64Char (a / 4), b64Char (a % 4 * 16), '=', '=']
  | [a, b] =>
    [b64Char (a / 4), b64Char (a % 4 * 16 + b / 16), b64Char (b % 16 * 4), '=']
  | a :: b :: c :: rest =>
    b64Char (a / 4) :: b64Char (a % 4 * 16 + b / 16) ::
      b64Char (b % 16 * 4 + c / 64) :: b64Char (c % 64) :: base64Encode rest

/-- Lines 116-126: `content_type = response.headers.get('content-type',
'image/jpeg')`, and if `'image' not in content_type`, guess from the
resolved URL's extension. -/
def decideContentType (hdr : Option String) (absUrl : String) : String :=
  let ct := hdr.getD "image/jpeg"
  if strContains ct "image" then ct
  else if strEndsWith absUrl ".png" then "image/png"
  else if strEndsWith absUrl ".gif" then "image/gif"
  else if strEndsWith absUrl ".webp" then "image/webp"
  else "image/jpeg"

/-- `img['src'] = value`: overwrite in place, or append when absent. -/
def setAttr (name val : String) (attrs : List (String × String)) :
    List (String × String) :=
  if (attrs.find? (fun kv => kv.1 == name)).isSome then
    attrs.map (fun kv => if kv.1 == name then (name, val) else kv)
  else attrs ++ [(name, val)]

/-- `if img.get(name): del img[name]` (lines 133-138): delete the
attribute only when its current value is truthy. -/
def delIfTruthy (name : String) (attrs : List (String × String)) :
    List (String × String) :=
  if truthy (getAttr name attrs) then
    attrs.filter (fun kv => kv.1 != name)
  else attrs

/-- `img.get('src') or img.get('data-src')` (line 102), with Python
truthiness: an absent or empty `src` falls through to `data-src`. -/
def pickSrc (attrs : List (String × String)) : Option String :=
  if truthy (getAttr "src" attrs) then getAttr "src" attrs
  else getAttr "data-src" attrs

/-- The per-image body of the `for img in soup.find_all('img')` loop
(lines 100-148), acting on the image's attributes: `none` means the image
is decomposed, `some attrs` the rewritten attribute list.  An absent or
empty chosen source removes the node (`if not src`, lines 103-105).  Any
fetch failure removes the node (lines 140-143); the outer catch-all
(lines 145-148) has no residual behavior once URL resolution and encoding
are total. -/
def processImgAttrs (resolve : String → String → String)
    (fetch : String → Option HttpResp) (baseUrl : String)
    (attrs : List (String × String)) : Option (List (String × String)) :=
  let srcOpt := pickSrc attrs
  if truthy srcOpt then
    let absUrl := resolve baseUrl (srcOpt.getD "")
    match fetch absUrl with
    | none => none
    | some resp =>
      let ct := decideContentType resp.contentType absUrl
      let dataUri :=
        "data:" ++ ct ++ ";base64," ++ String.mk (base64Encode resp.body)
      some (delIfTruthy "srcset" (delIfTruthy "data-src"
        (delIfTruthy "loading" (setAttr "src" dataUri attrs))))
  else none

mutual
/-- `preserve_inline_images` on one node.  The `find_all('img')` snapshot
is pre-order and only ever mutates `img` attributes or decomposes `img`
subtrees, so its net effect is this structural recursion: every `img` Tag
still present when its snapshot entry is reached is rewritten or removed
by `processImgAttrs`; `img`s nested below a removed `img` disappear with
it. -/
def inlineImagesN (resolve : String → String → String)
    (fetch : String → Option HttpResp) (baseUrl : String) :
    Node → Option Node
  | .text s => some (.text s)
  | .elem t a cs =>
    let cs' := inlineImagesL resolve fetch baseUrl cs
    if t == "img" then
      match processImgAttrs resolve fetch baseUrl a with
      | none => none
      | some a' => some (.elem t a' cs')
    else some (.elem t a cs')

def inlineImagesL (resolve : String → String → String)
    (fetch : String → Option HttpResp) (baseUrl : String) :
    NodeList → NodeList
  | .nil => .nil
  | .cons n rest =>
    match inlineImagesN resolve fetch baseUrl n with
    | none => inlineImagesL resolve fetch baseUrl rest
    | some n' => .cons n' (inlineImagesL resolve fetch baseUrl rest)
end

/-- `preserve_inline_images` (main.py lines 84-150). -/
def preserve_inline_images (resolve : String → String → String)
    (fetch : String → Option HttpResp) (baseUrl : String) (d : NodeList) :
    NodeList :=
  inlineImagesL resolve fetch baseUrl d

mutual
/-- Number of image-fetch network calls `preserve_inline_images` makes on
one node: one per `img` with a truthy source that is still in the tree
when its snapshot entry is reached (`img`s nested below a removed `img`
are decomposed with it and never fetched). -/
def fetchCountN (resolve : String → String → String)
    (fetch : String → Option HttpResp) (baseUrl : String) : Node → Nat
  | .text _ => 0
  | .elem t a cs =>
    if t == "img" then
      (if truthy (pickSrc a) then 1 else 0) +
        (match processImgAttrs resolve fetch baseUrl a with
         | none => 0
         | some _ => fetchCountL resolve fetch baseUrl cs)
    else fetchCountL resolve fetch baseUrl cs

def fetchCountL (resolve : String → String → String)
    (fetch : String → Option HttpResp) (baseUrl : String) : NodeList → Nat
  | .nil => 0
  | .cons n rest =>
    fetchCountN resolve fetch baseUrl n + fetchCountL resolve fetch baseUrl rest
end

/-! ## Story 2.1 / `/convert` endpoint (main.py lines 34-55, 390-452) -/

/-- What the network does for the page URL: a body, or a
`requests.RequestException`. -/
inductive FetchOutcome where
  | ok (body : String)
  | netErr (msg : String)
  deriving DecidableEq, Repr

/-- A FastAPI `HTTPException` as surfaced to the caller. -/
structure HTTPError where
  statusCode : Nat
  detail : String
  deriving DecidableEq, Repr

/-- Models `requests.get(url, ...)` for the page fetch.  `requests` raises
`MissingSchema` / `InvalidSchema` (both `RequestException`s) while
preparing the request — before any socket is opened — when the URL has no
usable http(s) scheme; otherwise exactly one network call happens.
Returns the outcome together with the number of network calls made. -/
def requestsGetPage (net : String → FetchOutcome) (url : String) :
    Except String String × Nat :=
  if strStartsWith url "http://" || strStartsWith url "https://" then
    match net url with
    | .ok body => (.ok body, 1)
    | .netErr m => (.error m, 1)
  else (.error ("Invalid URL " ++ url), 0)

/-- `fetch_html` (main.py lines 34-55): any `RequestException` is caught
and re-raised as `HTTPException(status_code=400, ...)`. -/
def fetch_html (net : String → FetchOutcome) (url : String) :
    Except HTTPError String × Nat :=
  match requestsGetPage net url with
  | (.ok b, n) => (.ok b, n)
  | (.error m, n) => (.error ⟨400, "Failed to fetch URL: " ++ m⟩, n)

/-- The `/convert` pipeline (main.py lines 390-452) up to the rendering
backend (an external collaborator whose input tree this returns): fetch
the page, locate the article, sanitize, inline images against the request
URL, trim references.  `parseHtml` abstracts
`BeautifulSoup(html, 'html.parser')`.  Returns the outcome (an
`HTTPError` propagates to the caller, line 446-447) and the total number
of network calls made. -/
def convert_to_pdf (net : String → FetchOutcome)
    (parseHtml : String → NodeList) (resolve : String → String → String)
    (fetch : String → Option HttpResp) (url : String) :
    Except HTTPError NodeList × Nat :=
  match fetch_html net url with
  | (.error e, n) => (.error e, n)
  | (.ok html, n) =>
    let soup := parseHtml html
    let s1 := parse_article_text_and_headings soup
    let s2 := exclude_sidebars_and_comments (remove_ads_and_banners s1)
    let s3 := preserve_inline_images resolve fetch url s2
    (.ok (reference_trimmer s3), n + fetchCountL resolve fetch url s2)

/-! ## Observation predicates used by the theorems -/

mutual
/-- Does some node (the node itself or a descendant) satisfy `p`? -/
def anyNodeN (p : Node → Bool) : Node → Bool
  | .text s => p (.text s)
  | .elem t a cs => p (.elem t a cs) || anyNodeL p cs

def anyNodeL (p : Node → Bool) : NodeList → Bool
  | .nil => false
  | .cons n rest => anyNodeN p n || anyNodeL p rest
end

/-- A match criterion that inspects only a node's own tag and attributes,
never its children.  All `find_all` criteria in `main.py` are of this
shape. -/
def ShallowPred (p : Node → Bool) : Prop :=
  ∀ t a cs cs', p (.elem t a cs) = p (.elem t a cs')

mutual
/-- Every `img` element in the node has a `src` that is a base64 data URI
produced by the inliner. -/
def AllImgsInlinedN : Node → Prop
  | .text _ => True
  | .elem t a cs =>
    (t = "img" → ∃ mime bytes, getAttr "src" a =
      some ("data:" ++ mime ++ ";base64," ++ String.mk (base64Encode bytes))) ∧
    AllImgsInlinedL cs

def AllImgsInlinedL : NodeList → Prop
  | .nil => True
  | .cons n rest => AllImgsInlinedN n ∧ AllImgsInlinedL rest
end

mutual
/-- The `img` elements of a node in document (pre-order) order. -/
def imgListN : Node → List Node
  | .text _ => []
  | .elem t a cs =>
    (if t == "img" then [.elem t a cs] else []) ++ imgListL cs

def imgListL : NodeList → List Node
  | .nil => []
  | .cons n rest => imgListN n ++ imgListL rest
end

/-- Is the forest empty? -/
def nilForest : NodeList → Bool
  | .nil => true
  | .cons _ _ => false

mutual
/-- Every `img` element is childless (`img` is a void element in HTML, so
`html.parser` always produces childless `img` Tags). -/
def voidImgsN : Node → Bool
  | .text _ => true
  | .elem t _ cs => (t != "img" || nilForest cs) && voidImgsL cs

def voidImgsL : NodeList → Bool
  | .nil => true
  | .cons n rest => voidImgsN n && voidImgsL rest
end

/-- The outcome of the per-image loop body on a (childless) `img` node:
removal, or the node with rewritten attributes. -/
def imgOutcome (resolve : String → String → String)
    (fetch : String → Option HttpResp) (baseUrl : String) :
    Node → Option Node
  | .text _ => none
  | .elem t a _ =>
    (processImgAttrs resolve fetch baseUrl a).map
      (fun a' => .elem t a' .nil)

/-- The image list remaining after one node's processing: nothing if the
node was removed, its images otherwise. -/
def imgsAfter : Option Node → List Node
  | none => []
  | some n => imgListN n

mutual
/-- The element nodes (Tags) of a node in pre-order document order, the
order in which bs4's `find`/`find_all` visit them. -/
def elemsPreN : Node → List Node
  | .text _ => []
  | .elem t a cs => .elem t a cs :: elemsPreL cs

def elemsPreL : NodeList → List Node
  | .nil => []
  | .cons n rest => elemsPreN n ++ elemsPreL rest
end

/-- Claim C2's wording of locator branch 3: ANY element whose class
attribute matches the content-keyword pattern (the code restricts the
search to `div` elements). -/
def anyClassContent : Node → Bool
  | .text _ => false
  | .elem _ attrs _ =>
    match getAttr "class" attrs with
    | some v => contentKeyMatch v
    | none => false

/-- Claim C2's wording of locator branch 4: ANY element whose id attribute
matches the content-keyword pattern. -/
def anyIdContent : Node → Bool
  | .text _ => false
  | .elem _ attrs _ =>
    match getAttr "id" attrs with
    | some v => contentKeyMatch v
    | none => false

/-- The fallback chain exactly as claim C2 words it ("the first element
whose class attribute matches ... the first element whose id attribute
matches"), stated over the pre-order element list; written from the
claim's words, to be compared with `parse_article_text_and_headings`. -/
def claimLocatorChain (d : NodeList) : NodeList :=
  match (elemsPreL d).find? (tagMatch "article") with
  | some a => .cons a .nil
  | none =>
    match (elemsPreL d).find? (tagMatch "main") with
    | some a => .cons a .nil
    | none =>
      match (elemsPreL d).find? anyClassContent with
      | some a => .cons a .nil
      | none =>
        match (elemsPreL d).find? anyIdContent with
        | some a => .cons a .nil
        | none => d

/-- The amended fallback chain: as claim C2, but with branches 3 and 4
restricted to `div` elements, stated over the pre-order element list. -/
def specLocatorChain (d : NodeList) : NodeList :=
  match (elemsPreL d).find? (tagMatch "article") with
  | some a => .cons a .nil
  | none =>
    match (elemsPreL d).find? (tagMatch "main") with
    | some a => .cons a .nil
    | none =>
      match (elemsPreL d).find? divClassContent with
      | some a => .cons a .nil
      | none =>
        match (elemsPreL d).find? divIdContent with
        | some a => .cons a .nil
        | none => d

/-! ## Concrete documents used in counterexamples and witnesses -/

/-- `<p>intro</p><span class="post">x</span>`: a document whose only
content-keyword element is a `span`, not a `div`. -/
def exSpanPost : NodeList :=
  .cons (.elem "p" [] (.cons (.text "intro") .nil))
    (.cons (.elem "span" [("class", "post")] (.cons (.text "x") .nil)) .nil)

/-- The spec's worked example: `<h1>India</h1><p>body</p>
<h2>References</h2><p>after</p>`. -/
def exIndia : NodeList :=
  .cons (.elem "h1" [] (.cons (.text "India") .nil))
    (.cons (.elem "p" [] (.cons (.text "body") .nil))
      (.cons (.elem "h2" [] (.cons (.text "References") .nil))
        (.cons (.elem "p" [] (.cons (.text "after") .nil)) .nil)))

/-- `<div><h2>References</h2>tail<p>x</p></div>`: a matching heading with
a bare text node among its following siblings. -/
def exTailText : NodeList :=
  .cons (.elem "div" []
    (.cons (.elem "h2" [] (.cons (.text "References") .nil))
      (.cons (.text "tail")
        (.cons (.elem "p" [] (.cons (.text "x") .nil)) .nil)))) .nil

/-- Five elements whose class values merely contain "ad" as a substring
without being advertising-related, plus an innocent paragraph. -/
def exOverAd : NodeList :=
  .cons (.elem "div" [("class", "header")] .nil)
    (.cons (.elem "div" [("class", "breadcrumb")] .nil)
      (.cons (.elem "div" [("class", "shadow")] .nil)
        (.cons (.elem "div" [("class", "read-more")] .nil)
          (.cons (.elem "div" [("class", "gradient")] .nil)
            (.cons (.elem "p" [] (.cons (.text "body") .nil)) .nil)))))

/-- A resolver for concrete examples: ignore the base, keep the source
URL. -/
def idResolve : String → String → String := fun _ src => src

/-- A phrase whose first and last characters are not whitespace (all seven
reference phrases qualify); such a phrase occurs in a stripped string iff
it occurs in the string. -/
def solidPhrase (p : List Char) : Bool :=
  (match p with | [] => false | c :: _ => !wsChar c) &&
    (match p.reverse with | [] => false | c :: _ => !wsChar c)

/-! ## String lemmas -/

theorem wsChar_lowerLookup (table : List (Char × Char))
    (ht : ∀ p ∈ table, wsChar p.1 = false ∧ wsChar p.2 = false) (c : Char) :
    wsChar (lowerLookup table c) = wsChar c := by
  induction table with
  | nil => rfl
  | cons p rest ih =>
    obtain ⟨u, l⟩ := p
    simp only [lowerLookup]
    rcases h : c == u with _ | _
    · simp only [Bool.false_eq_true, if_false]
      exact ih (fun q hq => ht q (List.mem_cons_of_mem _ hq))
    · simp only [if_true]
      have hc : c = u := eq_of_beq h
      have := ht (u, l) (List.mem_cons_self _ _)
      rw [hc, this.1, this.2]

theorem wsChar_lowerChar (c : Char) : wsChar (lowerChar c) = wsChar c :=
  wsChar_lowerLookup caseTable (by decide) c

theorem charsContain_reverse (pat l : List Char) :
    charsContain pat.reverse l.reverse = charsContain pat l := by
  rcases h : charsContain pat l with _ | _
  · rcases hr : charsContain pat.reverse l.reverse with _ | _
    · rfl
    · exfalso
      rw [charsContain_iff] at hr
      rcases hr with ⟨a, b, hab⟩
      have hl : l = b.reverse ++ pat ++ a.reverse := by
        have h2 := congrArg List.reverse hab
        simpa [List.append_assoc] using h2
      rw [(charsContain_iff pat l).mpr ⟨b.reverse, a.reverse, hl⟩] at h
      exact Bool.false_ne_true h.symm
  · rw [charsContain_iff] at h
    rcases h with ⟨a, b, rfl⟩
    exact (charsContain_iff _ _).mpr ⟨b.reverse, a.reverse, by simp⟩

theorem charsContain_dropWhile (pat l : List Char) (c0 : Char) (ps : List Char)
    (hp : pat = c0 :: ps) (hc : wsChar c0 = false)
    (h : charsContain pat l = true) :
    charsContain pat (l.dropWhile wsChar) = true := by
  induction l with
  | nil => simp [charsContain, hp, List.isEmpty] at h
  | cons c cs ih =>
    rcases hw : wsChar c with _ | _
    · rwa [List.dropWhile_cons_of_neg (by simp [hw])]
    · rw [List.dropWhile_cons_of_pos (by simp [hw])]
      apply ih
      rcases Bool.or_eq_true _ _ |>.mp h with hlead | htail
      · exfalso
        rw [hp] at hlead
        simp only [leadsWith, Bool.and_eq_true, beq_iff_eq] at hlead
        rw [hlead.1] at hc
        rw [hc] at hw
        exact Bool.false_ne_true hw
      · exact htail

theorem charsContain_trim (pat l : List Char) (hp : solidPhrase pat = true)
    (h : charsContain pat l = true) :
    charsContain pat (trimChars l) = true := by
  rcases hpat : pat with _ | ⟨c0, ps⟩
  · subst hpat; simp [solidPhrase] at hp
  · subst hpat
    simp only [solidPhrase, Bool.and_eq_true] at hp
    obtain ⟨hp1, hp2⟩ := hp
    have hc0 : wsChar c0 = false := by
      rcases hw : wsChar c0 with _ | _
      · rfl
      · rw [hw] at hp1; simp at hp1
    have step1 : charsContain (c0 :: ps) (l.dropWhile wsChar) = true :=
      charsContain_dropWhile _ l c0 ps rfl hc0 h
    rcases hrev : (c0 :: ps).reverse with _ | ⟨d0, qs⟩
    · exact absurd hrev (by simp)
    · have hd0 : wsChar d0 = false := by
        rw [hrev] at hp2
        simpa using hp2
      have step2 : charsContain (c0 :: ps).reverse
          (l.dropWhile wsChar).reverse = true := by
        rw [charsContain_reverse]; exact step1
      have step3 : charsContain (c0 :: ps).reverse
          ((l.dropWhile wsChar).reverse.dropWhile wsChar) = true := by
        rw [hrev] at step2 ⊢
        exact charsContain_dropWhile _ _ d0 qs rfl hd0 step2
      have : charsContain ((c0 :: ps).reverse).reverse
          ((l.dropWhile wsChar).reverse.dropWhile wsChar).reverse = true := by
        rw [charsContain_reverse]; exact step3
      simpa [trimChars] using this

theorem trimChars_decomposition (l : List Char) :
    ∃ a b, l = a ++ trimChars l ++ b := by
  refine ⟨l.takeWhile wsChar,
    ((l.dropWhile wsChar).reverse.takeWhile wsChar).reverse, ?_⟩
  conv_lhs => rw [← List.takeWhile_append_dropWhile (p := wsChar) (l := l)]
  rw [List.append_assoc]
  congr 1
  conv_lhs => rw [← List.reverse_reverse (l.dropWhile wsChar)]
  conv_lhs =>
    rw [← List.takeWhile_append_dropWhile (p := wsChar)
      (l := (l.dropWhile wsChar).reverse)]
  rw [List.reverse_append, trimChars]

theorem dropWhile_map_lower (l : List Char) :
    (lowerChars l).dropWhile wsChar = lowerChars (l.dropWhile wsChar) := by
  induction l with
  | nil => rfl
  | cons c cs ih =>
    simp only [lowerChars, List.map_cons]
    rcases hw : wsChar c with _ | _
    · rw [List.dropWhile_cons_of_neg (by simp [wsChar_lowerChar, hw]),
        List.dropWhile_cons_of_neg (by simp [hw])]
      rfl
    · rw [List.dropWhile_cons_of_pos (by simp [wsChar_lowerChar, hw]),
        List.dropWhile_cons_of_pos (by simp [hw])]
      exact ih

theorem trimChars_lowerChars (l : List Char) :
    trimChars (lowerChars l) = lowerChars (trimChars l) := by
  unfold trimChars
  rw [dropWhile_map_lower]
  rw [show (lowerChars (l.dropWhile wsChar)).reverse
      = lowerChars (l.dropWhile wsChar).reverse by
    simp [lowerChars, List.map_reverse]]
  rw [dropWhile_map_lower]
  simp [lowerChars, List.map_reverse]

/-- All seven reference phrases begin and end with non-whitespace. -/
theorem headingPhrases_solid : ∀ p ∈ headingPhrases, solidPhrase p = true := by
  decide

/-- A phrase hit in a heading's text is still a hit in the text of any
string extending it on both sides (so a matching heading anywhere below a
heading-tagged ancestor forces the ancestor to match as well). -/
theorem phraseHit_extend (t a b : List Char) (h : phraseHit t = true) :
    phraseHit (a ++ t ++ b) = true := by
  simp only [phraseHit, List.any_eq_true] at h ⊢
  obtain ⟨p, hmem, hocc⟩ := h
  refine ⟨p, hmem, ?_⟩
  obtain ⟨x, y, hxy⟩ := trimChars_decomposition t
  have hin : charsContain p (lowerChars (a ++ t ++ b)) = true := by
    have hsplit : a ++ t ++ b
        = (a ++ x) ++ trimChars t ++ (y ++ b) := by
      conv_lhs => rw [hxy]
      simp [List.append_assoc]
    rw [hsplit]
    simp only [lowerChars, List.map_append]
    exact charsContain_append p _ _ _ hocc
  have := charsContain_trim p (lowerChars (a ++ t ++ b))
    (headingPhrases_solid p hmem) hin
  rwa [trimChars_lowerChars] at this

/-! ## Attribute lemmas -/

theorem getAttr_map_overwrite (name v : String) (attrs : List (String × String))
    (h : (attrs.find? (fun kv => kv.1 == name)).isSome = true) :
    getAttr name (attrs.map
      (fun kv => if kv.1 == name then (name, v) else kv)) = some v := by
  induction attrs with
  | nil => simp [List.find?] at h
  | cons kv rest ih =>
    rcases hk : kv.1 == name with _ | _
    · have hfind : (rest.find? (fun kv => kv.1 == name)).isSome = true := by
        rw [List.find?_cons_of_neg _ (by simp [hk])] at h
        exact h
      simp only [List.map_cons, hk, Bool.false_eq_true, if_false]
      rw [getAttr, List.find?_cons_of_neg _ (by simp [hk])]
      exact ih hfind
    · simp only [List.map_cons, hk, if_true]
      rw [getAttr, List.find?_cons_of_pos _ (by simp)]
      rfl

theorem getAttr_append_single (name v : String) (attrs : List (String × String))
    (h : (attrs.find? (fun kv => kv.1 == name)).isSome = false) :
    getAttr name (attrs ++ [(name, v)]) = some v := by
  induction attrs with
  | nil => simp [getAttr, List.find?]
  | cons kv rest ih =>
    rcases hk : kv.1 == name with _ | _
    · have hfind : (rest.find? (fun kv => kv.1 == name)).isSome = false := by
        rw [List.find?_cons_of_neg _ (by simp [hk])] at h
        exact h
      rw [List.cons_append, getAttr, List.find?_cons_of_neg _ (by simp [hk])]
      exact ih hfind
    · exfalso
      rw [List.find?_cons_of_pos _ (by simp [hk])] at h
      simp at h

/-- Setting an attribute makes `getAttr` return the new value. -/
theorem getAttr_setAttr_same (name v : String) (attrs : List (String × String)) :
    getAttr name (setAttr name v attrs) = some v := by
  unfold setAttr
  rcases h : (attrs.find? (fun kv => kv.1 == name)).isSome with _ | _
  · rw [if_neg (by simp [h])]
    exact getAttr_append_single name v attrs h
  · rw [if_pos h]
    exact getAttr_map_overwrite name v attrs h

theorem getAttr_filter_ne (name name' : String) (h : name ≠ name')
    (attrs : List (String × String)) :
    getAttr name (attrs.filter (fun kv => kv.1 != name'))
      = getAttr name attrs := by
  induction attrs with
  | nil => rfl
  | cons kv rest ih =>
    rcases hkeep : kv.1 != name' with _ | _
    · have hkv : kv.1 = name' := bne_eq_false_iff_eq.mp hkeep
      have hk : (kv.1 == name) = false :=
        beq_eq_false_iff_ne.mpr (by rw [hkv]; exact Ne.symm h)
      rw [List.filter_cons_of_neg (by simp [hkeep])]
      simp only [getAttr] at ih ⊢
      rw [List.find?_cons_of_neg _ (by simp [hk])]
      exact ih
    · rw [List.filter_cons_of_pos (by simp [hkeep])]
      simp only [getAttr] at ih ⊢
      rcases hk : kv.1 == name with _ | _
      · rw [List.find?_cons_of_neg _ (by simp [hk]),
          List.find?_cons_of_neg _ (by simp [hk])]
        exact ih
      · rw [List.find?_cons_of_pos _ (by simp [hk]),
          List.find?_cons_of_pos _ (by simp [hk])]

/-- Deleting one attribute leaves the others readable. -/
theorem getAttr_delIfTruthy_ne (name name' : String) (h : name ≠ name')
    (attrs : List (String × String)) :
    getAttr name (delIfTruthy name' attrs) = getAttr name attrs := by
  unfold delIfTruthy
  rcases ht : truthy (getAttr name' attrs) with _ | _
  · simp
  · simp only [if_true]
    exact getAttr_filter_ne name name' h attrs

/-! ## Removal-sweep lemmas -/

mutual
/-- Sweeping with any criterion cannot introduce a node matching a shallow
criterion `p` that no node matched before. -/
theorem anyNodeN_removeN (p q : Node → Bool) (hp : ShallowPred p) :
    ∀ n, anyNodeN p n = false → anyNodeN p (removeN q n) = false
  | .text _, h => h
  | .elem t a cs, h => by
    simp only [anyNodeN, removeN, Bool.or_eq_false_iff] at h ⊢
    refine ⟨?_, anyNodeL_removeL p q hp cs h.2⟩
    rw [hp t a (removeL q cs) cs]
    exact h.1

theorem anyNodeL_removeL (p q : Node → Bool) (hp : ShallowPred p) :
    ∀ l, anyNodeL p l = false → anyNodeL p (removeL q l) = false
  | .nil, _ => rfl
  | .cons n rest, h => by
    simp only [anyNodeL, Bool.or_eq_false_iff] at h
    simp only [removeL]
    rcases hq : q n with _ | _
    · simp only [Bool.false_eq_true, if_false, anyNodeL, Bool.or_eq_false_iff]
      exact ⟨anyNodeN_removeN p q hp n h.1, anyNodeL_removeL p q hp rest h.2⟩
    · simp only [if_true]
      exact anyNodeL_removeL p q hp rest h.2
end

mutual
/-- Sweeping with a shallow criterion clears it: no node of the output
matches (a surviving node not hit itself has unchanged tag/attributes). -/
theorem selfClearN (p : Node → Bool) (hp : ShallowPred p) :
    ∀ n, p n = false → anyNodeN p (removeN p n) = false
  | .text _, h => by simpa [removeN, anyNodeN] using h
  | .elem t a cs, h => by
    simp only [removeN, anyNodeN, Bool.or_eq_false_iff]
    refine ⟨?_, selfClearL p hp cs⟩
    rw [hp t a (removeL p cs) cs]
    exact h

theorem selfClearL (p : Node → Bool) (hp : ShallowPred p) :
    ∀ l, anyNodeL p (removeL p l) = false
  | .nil => rfl
  | .cons n rest => by
    simp only [removeL]
    rcases hq : p n with _ | _
    · simp only [Bool.false_eq_true, if_false, anyNodeL, Bool.or_eq_false_iff]
      exact ⟨selfClearN p hp n hq, selfClearL p hp rest⟩
    · simp only [if_true]
      exact selfClearL p hp rest
end

/-- A node with no match anywhere does not match itself. -/
theorem self_of_anyNodeN (p : Node → Bool) (n : Node)
    (h : anyNodeN p n = false) : p n = false := by
  cases n with
  | text s => exact h
  | elem t a cs =>
    simp only [anyNodeN, Bool.or_eq_false_iff] at h
    exact h.1

mutual
/-- Sweeping a forest with no match anywhere changes nothing. -/
theorem cleanRemoveN (p : Node → Bool) :
    ∀ n, anyNodeN p n = false → removeN p n = n
  | .text _, _ => rfl
  | .elem t a cs, h => by
    simp only [anyNodeN, Bool.or_eq_false_iff] at h
    simp only [removeN]
    rw [cleanRemoveL p cs h.2]

theorem cleanRemoveL (p : Node → Bool) :
    ∀ l, anyNodeL p l = false → removeL p l = l
  | .nil, _ => rfl
  | .cons n rest, h => by
    simp only [anyNodeL, Bool.or_eq_false_iff] at h
    simp only [removeL, self_of_anyNodeN p n h.1, Bool.false_eq_true, if_false]
    rw [cleanRemoveN p n h.1, cleanRemoveL p rest h.2]
end

theorem sweepAll_cons (q : Node → Bool) (qs : List (Node → Bool))
    (d : NodeList) : sweepAll (q :: qs) d = sweepAll qs (removeL q d) := rfl

theorem sweepAll_preserves (ps : List (Node → Bool)) (p : Node → Bool)
    (hp : ShallowPred p) :
    ∀ d, anyNodeL p d = false → anyNodeL p (sweepAll ps d) = false := by
  induction ps with
  | nil => intro d h; exact h
  | cons q qs ih =>
    intro d h
    rw [sweepAll_cons]
    exact ih (removeL q d) (anyNodeL_removeL p q hp d h)

/-- After sweeping with a list of shallow criteria, none of them matches
any node of the output. -/
theorem sweepAll_clears (ps : List (Node → Bool))
    (hball : ∀ p ∈ ps, ShallowPred p) (p : Node → Bool) (hmem : p ∈ ps) :
    ∀ d, anyNodeL p (sweepAll ps d) = false := by
  induction ps with
  | nil => cases hmem
  | cons q qs ih =>
    intro d
    rw [sweepAll_cons]
    rcases List.mem_cons.mp hmem with rfl | hmem'
    · exact sweepAll_preserves qs p (hball p hmem) _
        (selfClearL p (hball p hmem) d)
    · exact ih (fun r hr => hball r (List.mem_cons_of_mem _ hr)) hmem' _

/-- Sweeping a forest none of the criteria matches changes nothing. -/
theorem sweepAll_clean (ps : List (Node → Bool)) :
    ∀ d, (∀ p ∈ ps, anyNodeL p d = false) → sweepAll ps d = d := by
  induction ps with
  | nil => intro d _; rfl
  | cons q qs ih =>
    intro d h
    rw [sweepAll_cons, cleanRemoveL q d (h q (List.mem_cons_self _ _))]
    exact ih d (fun p hp => h p (List.mem_cons_of_mem _ hp))

theorem sweepAll_idem (ps : List (Node → Bool))
    (hb : ∀ p ∈ ps, ShallowPred p) (d : NodeList) :
    sweepAll ps (sweepAll ps d) = sweepAll ps d :=
  sweepAll_clean ps _ (fun p hp => sweepAll_clears ps hb p hp d)

theorem sweepAll_append (a b : List (Node → Bool)) (d : NodeList) :
    sweepAll (a ++ b) d = sweepAll b (sweepAll a d) := by
  simp [sweepAll, List.foldl_append]

/-! ## The criteria of main.py are all shallow -/

theorem shallow_classMatch (pat : String) : ShallowPred (classMatch pat) :=
  fun _ _ _ _ => rfl

theorem shallow_idMatch (pat : String) : ShallowPred (idMatch pat) :=
  fun _ _ _ _ => rfl

theorem shallow_tagMatch (name : String) : ShallowPred (tagMatch name) :=
  fun _ _ _ _ => rfl

theorem shallow_scriptOrStyle : ShallowPred scriptOrStyle :=
  fun _ _ _ _ => rfl

theorem shallow_tagsClassMatch (names : List String) (pat : String) :
    ShallowPred (tagsClassMatch names pat) :=
  fun _ _ _ _ => rfl

theorem shallow_tagsIdMatch (names : List String) (pat : String) :
    ShallowPred (tagsIdMatch names pat) :=
  fun _ _ _ _ => rfl

theorem adPreds_shallow : ∀ p ∈ adPreds, ShallowPred p := by
  intro p hp
  simp only [adPreds, List.mem_append, List.mem_flatMap, List.mem_cons,
    List.not_mem_nil, or_false, List.mem_singleton] at hp
  rcases hp with ⟨q, _, rfl | rfl⟩ | rfl
  · exact shallow_classMatch q
  · exact shallow_idMatch q
  · exact shallow_scriptOrStyle

theorem unwantedPreds_shallow : ∀ p ∈ unwantedPreds, ShallowPred p := by
  intro p hp
  simp only [unwantedPreds, List.mem_flatMap, List.mem_cons,
    List.not_mem_nil, or_false] at hp
  rcases hp with ⟨q, _, rfl | rfl | rfl⟩
  · exact shallow_classMatch q
  · exact shallow_idMatch q
  · exact shallow_tagMatch q

theorem referencePreds_shallow : ∀ p ∈ referencePreds, ShallowPred p := by
  intro p hp
  simp only [referencePreds, List.mem_flatMap, List.mem_cons,
    List.not_mem_nil, or_false] at hp
  rcases hp with ⟨q, _, rfl | rfl⟩
  · exact shallow_tagsClassMatch _ q
  · exact shallow_tagsIdMatch _ q

theorem sanitizer_eq_sweep (d : NodeList) :
    sanitizer d = sweepAll (adPreds ++ unwantedPreds) d := by
  rw [sweepAll_append]
  rfl

theorem sanitizerPreds_shallow :
    ∀ p ∈ adPreds ++ unwantedPreds, ShallowPred p := by
  intro p hp
  rcases List.mem_append.mp hp with h | h
  · exact adPreds_shallow p h
  · exact unwantedPreds_shallow p h

/-! ## Truncation lemmas -/

theorem anyNodeL_dropTagSiblings (p : Node → Bool) :
    ∀ l, anyNodeL p l = false → anyNodeL p (dropTagSiblings l) = false
  | .nil, h => h
  | .cons (.text s) rest, h => by
    simp only [anyNodeL, Bool.or_eq_false_iff] at h
    simp only [dropTagSiblings, anyNodeL, Bool.or_eq_false_iff]
    exact ⟨h.1, anyNodeL_dropTagSiblings p rest h.2⟩
  | .cons (.elem t a cs) rest, h => by
    simp only [anyNodeL, Bool.or_eq_false_iff] at h
    simp only [dropTagSiblings]
    exact anyNodeL_dropTagSiblings p rest h.2

/-- After the sibling sweep only text nodes remain, so no heading trigger
can match there. -/
theorem trigger_dropTagSiblings :
    ∀ l, anyNodeL headingTrigger (dropTagSiblings l) = false
  | .nil => rfl
  | .cons (.text s) rest => by
    simp only [dropTagSiblings, anyNodeL, anyNodeN, headingTrigger,
      Bool.false_or]
    exact trigger_dropTagSiblings rest
  | .cons (.elem t a cs) rest => by
    simp only [dropTagSiblings]
    exact trigger_dropTagSiblings rest

mutual
/-- Truncation cannot introduce a node matching a shallow criterion. -/
theorem anyNodeN_truncN (p : Node → Bool) (hp : ShallowPred p) :
    ∀ n, anyNodeN p n = false → anyNodeN p (truncN n) = false
  | .text _, h => h
  | .elem t a cs, h => by
    simp only [anyNodeN, Bool.or_eq_false_iff] at h
    simp only [truncN, anyNodeN, Bool.or_eq_false_iff]
    refine ⟨?_, anyNodeL_truncL p hp cs h.2⟩
    rw [hp t a (truncL cs) cs]
    exact h.1

theorem anyNodeL_truncL (p : Node → Bool) (hp : ShallowPred p) :
    ∀ l, anyNodeL p l = false → anyNodeL p (truncL l) = false
  | .nil, h => h
  | .cons n rest, h => by
    simp only [anyNodeL, Bool.or_eq_false_iff] at h
    simp only [truncL]
    rcases ht : headingTrigger n with _ | _
    · simp only [Bool.false_eq_true, if_false, anyNodeL, Bool.or_eq_false_iff]
      exact ⟨anyNodeN_truncN p hp n h.1, anyNodeL_truncL p hp rest h.2⟩
    · simp only [if_true]
      exact anyNodeL_dropTagSiblings p rest h.2
end

mutual
/-- A heading trigger anywhere inside a node forces a phrase hit in the
node's own text (text of a descendant is an infix of the ancestor's). -/
theorem phraseHit_of_triggerN :
    ∀ n, anyNodeN headingTrigger n = true → phraseHit (textChars n) = true
  | .text s, h => by simp [anyNodeN, headingTrigger] at h
  | .elem t a cs, h => by
    simp only [anyNodeN, Bool.or_eq_true] at h
    simp only [textChars]
    rcases h with h | h
    · simp only [headingTrigger, Bool.and_eq_true] at h
      exact h.2
    · exact phraseHit_of_triggerL cs h

theorem phraseHit_of_triggerL :
    ∀ l, anyNodeL headingTrigger l = true → phraseHit (textCharsL l) = true
  | .nil, h => by simp [anyNodeL] at h
  | .cons n rest, h => by
    simp only [anyNodeL, Bool.or_eq_true] at h
    simp only [textCharsL]
    rcases h with h | h
    · have h1 := phraseHit_extend (textChars n) [] (textCharsL rest)
        (phraseHit_of_triggerN n h)
      simpa using h1
    · have h1 := phraseHit_extend (textCharsL rest) (textChars n) []
        (phraseHit_of_triggerL rest h)
      simpa using h1
end

mutual
/-- Truncation is the identity on a forest with no trigger anywhere. -/
theorem truncN_clean :
    ∀ n, anyNodeN headingTrigger n = false → truncN n = n
  | .text _, _ => rfl
  | .elem t a cs, h => by
    simp only [anyNodeN, Bool.or_eq_false_iff] at h
    simp only [truncN]
    rw [truncL_clean cs h.2]

theorem truncL_clean :
    ∀ l, anyNodeL headingTrigger l = false → truncL l = l
  | .nil, _ => rfl
  | .cons n rest, h => by
    simp only [anyNodeL, Bool.or_eq_false_iff] at h
    simp only [truncL, self_of_anyNodeN _ n h.1, Bool.false_eq_true, if_false]
    rw [truncN_clean n h.1, truncL_clean rest h.2]
end

mutual
/-- No heading trigger survives truncation: the output of `truncL` has no
matching heading anywhere.  The delicate point is that truncating below a
non-matching heading cannot make it match: any trigger below it would
already have forced the heading itself to match (via
`phraseHit_of_triggerL`), so its subtree is untouched. -/
theorem truncN_noTrigger :
    ∀ n, headingTrigger n = false → anyNodeN headingTrigger (truncN n) = false
  | .text _, h => h
  | .elem t a cs, h => by
    simp only [truncN, anyNodeN, Bool.or_eq_false_iff]
    refine ⟨?_, truncL_noTrigger cs⟩
    rcases hh : (t == "h2" || t == "h3" || t == "h4") with _ | _
    · simp [headingTrigger, hh]
    · have hphr : phraseHit (textCharsL cs) = false := by
        simpa only [headingTrigger, hh, Bool.true_and] using h
      have hnone : anyNodeL headingTrigger cs = false := by
        rcases hc : anyNodeL headingTrigger cs with _ | _
        · rfl
        · rw [phraseHit_of_triggerL cs hc] at hphr
          exact hphr
      rw [truncL_clean cs hnone]
      simp [headingTrigger, hh, hphr]

theorem truncL_noTrigger :
    ∀ l, anyNodeL headingTrigger (truncL l) = false
  | .nil => rfl
  | .cons n rest => by
    simp only [truncL]
    rcases ht : headingTrigger n with _ | _
    · simp only [Bool.false_eq_true, if_false, anyNodeL, Bool.or_eq_false_iff]
      exact ⟨truncN_noTrigger n ht, truncL_noTrigger rest⟩
    · simp only [if_true]
      exact trigger_dropTagSiblings rest
end

theorem truncL_idem (l : NodeList) : truncL (truncL l) = truncL l :=
  truncL_clean _ (truncL_noTrigger l)

/-! ## Image-inlining lemmas -/

/-- On success the per-image body leaves `src` holding a base64 data URI. -/
theorem processImgAttrs_src (resolve : String → String → String)
    (fetch : String → Option HttpResp) (baseUrl : String)
    (attrs a' : List (String × String))
    (h : processImgAttrs resolve fetch baseUrl attrs = some a') :
    ∃ mime bytes, getAttr "src" a' =
      some ("data:" ++ mime ++ ";base64," ++ String.mk (base64Encode bytes)) := by
  simp only [processImgAttrs] at h
  rcases ht : truthy (pickSrc attrs) with _ | _
  · rw [ht] at h
    simp at h
  · rw [ht] at h
    simp only [if_true] at h
    rcases hf : fetch (resolve baseUrl ((pickSrc attrs).getD "")) with _ | resp
    · rw [hf] at h
      simp at h
    · rw [hf] at h
      simp only [Option.some.injEq] at h
      refine ⟨decideContentType resp.contentType
        (resolve baseUrl ((pickSrc attrs).getD "")), resp.body, ?_⟩
      rw [← h]
      rw [getAttr_delIfTruthy_ne _ _ (by decide),
        getAttr_delIfTruthy_ne _ _ (by decide),
        getAttr_delIfTruthy_ne _ _ (by decide),
        getAttr_setAttr_same]

mutual
/-- Every image surviving the inliner carries a data-URI `src`. -/
theorem allInlinedN (resolve : String → String → String)
    (fetch : String → Option HttpResp) (baseUrl : String) :
    ∀ n n', inlineImagesN resolve fetch baseUrl n = some n' →
      AllImgsInlinedN n'
  | .text s, n', h => by
    simp only [inlineImagesN, Option.some.injEq] at h
    rw [← h]
    exact trivial
  | .elem t a cs, n', h => by
    simp only [inlineImagesN] at h
    rcases hti : (t == "img") with _ | _
    · rw [hti] at h
      simp only [Bool.false_eq_true, if_false, Option.some.injEq] at h
      rw [← h]
      refine ⟨fun himg => ?_, allInlinedL resolve fetch baseUrl cs⟩
      · rw [himg] at hti
        simp at hti
    · rw [hti] at h
      simp only [if_true] at h
      rcases hp : processImgAttrs resolve fetch baseUrl a with _ | a0
      · rw [hp] at h
        simp at h
      · rw [hp] at h
        simp only [Option.some.injEq] at h
        rw [← h]
        exact ⟨fun _ => processImgAttrs_src resolve fetch baseUrl a a0 hp,
          allInlinedL resolve fetch baseUrl cs⟩

theorem allInlinedL (resolve : String → String → String)
    (fetch : String → Option HttpResp) (baseUrl : String) :
    ∀ l, AllImgsInlinedL (inlineImagesL resolve fetch baseUrl l)
  | .nil => trivial
  | .cons n rest => by
    simp only [inlineImagesL]
    rcases hn : inlineImagesN resolve fetch baseUrl n with _ | n'
    · exact allInlinedL resolve fetch baseUrl rest
    · exact ⟨allInlinedN resolve fetch baseUrl n n' hn,
        allInlinedL resolve fetch baseUrl rest⟩
end

/-- An image with no source at all is always removed by the loop body. -/
theorem processImgAttrs_noSource (resolve : String → String → String)
    (fetch : String → Option HttpResp) (baseUrl : String)
    (attrs : List (String × String)) (h1 : getAttr "src" attrs = none)
    (h2 : getAttr "data-src" attrs = none) :
    processImgAttrs resolve fetch baseUrl attrs = none := by
  unfold processImgAttrs pickSrc
  rw [h1, h2]
  rfl

/-- The inliner distributes over sibling concatenation. -/
theorem inlineImagesL_append (resolve : String → String → String)
    (fetch : String → Option HttpResp) (baseUrl : String) :
    ∀ l1 l2, inlineImagesL resolve fetch baseUrl (NodeList.append l1 l2)
      = NodeList.append (inlineImagesL resolve fetch baseUrl l1)
          (inlineImagesL resolve fetch baseUrl l2)
  | .nil, l2 => rfl
  | .cons n rest, l2 => by
    simp only [NodeList.append, inlineImagesL]
    rcases hn : inlineImagesN resolve fetch baseUrl n with _ | n'
    · exact inlineImagesL_append resolve fetch baseUrl rest l2
    · simp only [NodeList.append]
      rw [inlineImagesL_append resolve fetch baseUrl rest l2]

mutual
/-- For documents with childless images (all HTML documents), the images
surviving the inliner are exactly the per-image outcomes of the input
images, in input document order. -/
theorem imgOrderN (resolve : String → String → String)
    (fetch : String → Option HttpResp) (baseUrl : String) :
    ∀ n, voidImgsN n = true →
      imgsAfter (inlineImagesN resolve fetch baseUrl n)
        = (imgListN n).filterMap (imgOutcome resolve fetch baseUrl)
  | .text s, _ => by
    simp [inlineImagesN, imgsAfter, imgListN]
  | .elem t a cs, hv => by
    simp only [voidImgsN, Bool.and_eq_true] at hv
    rcases hti : (t == "img") with _ | _
    · simp only [inlineImagesN, hti, Bool.false_eq_true, if_false]
      simp only [imgsAfter, imgListN, hti, Bool.false_eq_true, if_false,
        List.nil_append]
      exact imgOrderL resolve fetch baseUrl cs hv.2
    · have hnil : cs = .nil := by
        have h1 := hv.1
        rw [Bool.or_eq_true] at h1
        rcases h1 with h | h
        · rw [bne, hti] at h
          simp at h
        · cases cs with
          | nil => rfl
          | cons x xs => simp [nilForest] at h
      subst hnil
      simp only [inlineImagesN, hti, if_true, inlineImagesL]
      rcases hp : processImgAttrs resolve fetch baseUrl a with _ | a0
      · simp only [imgsAfter, imgListN, hti, if_true, List.filterMap,
          imgOutcome, hp, Option.map_none]
        rfl
      · simp only [imgsAfter, imgListN, hti, if_true, List.filterMap,
          imgOutcome, hp, Option.map_some]
        rfl

theorem imgOrderL (resolve : String → String → String)
    (fetch : String → Option HttpResp) (baseUrl : String) :
    ∀ l, voidImgsL l = true →
      imgListL (inlineImagesL resolve fetch baseUrl l)
        = (imgListL l).filterMap (imgOutcome resolve fetch baseUrl)
  | .nil, _ => rfl
  | .cons n rest, hv => by
    simp only [voidImgsL, Bool.and_eq_true] at hv
    simp only [inlineImagesL, imgListL, List.filterMap_append]
    rcases hn : inlineImagesN resolve fetch baseUrl n with _ | n'
    · have h1 := imgOrderN resolve fetch baseUrl n hv.1
      rw [hn] at h1
      simp only [imgsAfter] at h1
      rw [← h1, imgOrderL resolve fetch baseUrl rest hv.2, List.nil_append]
    · have h1 := imgOrderN resolve fetch baseUrl n hv.1
      rw [hn] at h1
      simp only [imgsAfter] at h1
      simp only [imgListL]
      rw [← h1, imgOrderL resolve fetch baseUrl rest hv.2]
end

/-! ## Locator lemmas -/

mutual
/-- bs4's `find` returns the first pre-order element satisfying the
criterion. -/
theorem findN_eq_find? (p : Node → Bool) :
    ∀ n, findN p n = (elemsPreN n).find? p
  | .text _ => rfl
  | .elem t a cs => by
    simp only [findN, elemsPreN]
    rcases hp : p (.elem t a cs) with _ | _
    · rw [if_neg (by simp [hp]), List.find?_cons_of_neg _ (by simp [hp])]
      exact findL_eq_find? p cs
    · rw [if_pos (by simp [hp]), List.find?_cons_of_pos _ (by simp [hp])]

theorem findL_eq_find? (p : Node → Bool) :
    ∀ l, findL p l = (elemsPreL l).find? p
  | .nil => rfl
  | .cons n rest => by
    simp only [findL, elemsPreL, List.find?_append]
    rw [← findN_eq_find? p n, ← findL_eq_find? p rest]
    rcases h : findN p n with _ | m <;> simp
end

mutual
/-- If no node matches the weaker criterion `q`, none matches `p`. -/
theorem anyNodeN_mono (p q : Node → Bool)
    (hpq : ∀ n, p n = true → q n = true) :
    ∀ n, anyNodeN q n = false → anyNodeN p n = false
  | .text s, h => by
    simp only [anyNodeN] at h ⊢
    rcases hp : p (.text s) with _ | _
    · rfl
    · rw [hpq _ hp] at h
      simp at h
  | .elem t a cs, h => by
    simp only [anyNodeN, Bool.or_eq_false_iff] at h ⊢
    refine ⟨?_, anyNodeL_mono p q hpq cs h.2⟩
    rcases hp : p (.elem t a cs) with _ | _
    · rfl
    · have h1 := h.1
      rw [hpq _ hp] at h1
      simp at h1

theorem anyNodeL_mono (p q : Node → Bool)
    (hpq : ∀ n, p n = true → q n = true) :
    ∀ l, anyNodeL q l = false → anyNodeL p l = false
  | .nil, h => h
  | .cons n rest, h => by
    simp only [anyNodeL, Bool.or_eq_false_iff] at h ⊢
    exact ⟨anyNodeN_mono p q hpq n h.1, anyNodeL_mono p q hpq rest h.2⟩
end

/-! ## The claims -/

/-- C1: for every input tree and base URL, after ImageInliner
(`preserve_inline_images`) completes, every `img` node still present has a
`src` of the form `data:<mime>;base64,<encoded-bytes>` — no remaining
`img` references an external URL — and the loop body removes every `img`
that had neither a `src` nor a `data-src` attribute. -/
theorem c1_images_self_contained (resolve : String → String → String)
    (fetch : String → Option HttpResp) (baseUrl : String) (d : NodeList) :
    AllImgsInlinedL (preserve_inline_images resolve fetch baseUrl d) ∧
    (∀ attrs, getAttr "src" attrs = none → getAttr "data-src" attrs = none →
      processImgAttrs resolve fetch baseUrl attrs = none) :=
  ⟨allInlinedL resolve fetch baseUrl d,
   fun attrs h1 h2 => processImgAttrs_noSource resolve fetch baseUrl attrs h1 h2⟩

/-- Witness for C1 at a concrete document: one fetchable image and one
image with no source. -/
theorem c1_witness :
    getAttr "src" [("alt", "no-source")] = none ∧
    AllImgsInlinedL (preserve_inline_images idResolve
      (fun _ => some ⟨some "image/png", [1]⟩) "http://x"
      (.cons (.elem "img" [("src", "a.png")] .nil)
        (.cons (.elem "img" [("alt", "no-source")] .nil) .nil))) ∧
    processImgAttrs idResolve (fun _ => some ⟨some "image/png", [1]⟩)
      "http://x" [("alt", "no-source")] = none :=
  ⟨by decide,
   (c1_images_self_contained idResolve (fun _ => some ⟨some "image/png", [1]⟩)
     "http://x" (.cons (.elem "img" [("src", "a.png")] .nil)
       (.cons (.elem "img" [("alt", "no-source")] .nil) .nil))).1,
   (c1_images_self_contained idResolve (fun _ => some ⟨some "image/png", [1]⟩)
     "http://x" .nil).2 [("alt", "no-source")] (by decide) (by decide)⟩

/-- C2 counterexample: on `<p>intro</p><span class="post">x</span>` the
chain as the claim words it (branch 3 over any element) would return the
span, but `parse_article_text_and_headings` only searches `div` elements
in branches 3 and 4 and falls back to the whole document. -/
theorem c2_counterexample :
    parse_article_text_and_headings exSpanPost = exSpanPost ∧
    claimLocatorChain exSpanPost
      = .cons (.elem "span" [("class", "post")] (.cons (.text "x") .nil)) .nil ∧
    claimLocatorChain exSpanPost ≠ parse_article_text_and_headings exSpanPost := by
  refine ⟨?_, ?_, ?_⟩ <;> decide

/-- C2 (amended): the locator picks, in this order, the first pre-order
element tagged `article`, else the first tagged `main`, else the first
DIV whose class attribute matches the content pattern, else the first DIV
whose id matches, else it returns the whole document; no error is ever
signaled on fallback (the chain is a total function). -/
theorem c2_locator_chain (d : NodeList) :
    parse_article_text_and_headings d = specLocatorChain d := by
  unfold parse_article_text_and_headings specLocatorChain
  rw [findL_eq_find?, findL_eq_find?, findL_eq_find?, findL_eq_find?]

/-- C3 counterexample: on `<div><h2>References</h2>tail<p>x</p></div>` the
trimmer removes the heading and the `p` element but keeps the bare text
sibling "tail" (the sibling walk `find_next_sibling()` yields only Tags),
so not every following sibling is deleted as the claim states. -/
theorem c3_counterexample :
    reference_trimmer exTailText
      = .cons (.elem "div" [] (.cons (.text "tail") .nil)) .nil ∧
    reference_trimmer exTailText
      ≠ .cons (.elem "div" [] .nil) .nil := by
  constructor <;> decide

/-- C3 (amended): for each heading of level 2-4 whose trimmed,
case-insensitive text contains a reference phrase, the heading and every
one of its following sibling ELEMENTS are deleted, while bare text
siblings survive; no matching heading remains anywhere in the output; and
the India/References example trims to the first heading and paragraph. -/
theorem c3_heading_truncation (hd : Node) (rest : NodeList) :
    (headingTrigger hd = true → truncL (.cons hd rest) = dropTagSiblings rest) ∧
    (∀ l, anyNodeL headingTrigger (truncL l) = false) ∧
    reference_trimmer exIndia
      = .cons (.elem "h1" [] (.cons (.text "India") .nil))
          (.cons (.elem "p" [] (.cons (.text "body") .nil)) .nil) := by
  refine ⟨fun ht => ?_, truncL_noTrigger, by decide⟩
  simp [truncL, ht]

/-- Witness for C3: a concrete matching heading triggers the truncation
equation. -/
theorem c3_witness :
    headingTrigger (.elem "h2" [] (.cons (.text "See Also") .nil)) = true ∧
    truncL (.cons (.elem "h2" [] (.cons (.text "See Also") .nil))
        (.cons (.text "t") (.cons (.elem "p" [] .nil) .nil)))
      = dropTagSiblings (.cons (.text "t") (.cons (.elem "p" [] .nil) .nil)) :=
  ⟨by decide,
   (c3_heading_truncation (.elem "h2" [] (.cons (.text "See Also") .nil))
     (.cons (.text "t") (.cons (.elem "p" [] .nil) .nil))).1 (by decide)⟩

/-- C4 counterexample: a successful fetch with no declared content type
for a URL ending in `.png` embeds as `image/jpeg`: the code defaults the
missing header to `image/jpeg`, which passes the `'image' in content_type`
test, so the extension is never consulted — the claim requires the
extension-inferred `image/png` whenever the declared type does not name an
image kind. -/
theorem c4_counterexample :
    decideContentType none "http://x/a.png" = "image/jpeg" ∧
    strEndsWith "http://x/a.png" ".png" = true ∧
    processImgAttrs idResolve (fun _ => some ⟨none, [1]⟩) "http://x"
      [("src", "http://x/a.png")]
      = some [("src", "data:image/jpeg;base64,AQ==")] ∧
    "image/jpeg" ≠ "image/png" := by
  refine ⟨?_, ?_, ?_, ?_⟩ <;> decide

/-- C4 (amended): the embedding MIME type is the response's declared
content type whenever that string contains "image" (the code's test for
naming an image kind), with a missing content-type header defaulting to
`image/jpeg` without consulting the URL; otherwise it is inferred from the
resolved URL's extension (png/gif/webp explicit, any other extension
defaulting to `image/jpeg`); in particular a successful fetch with
declared type `image/png` yields a src of the form
`data:image/png;base64,<encoded-bytes>`. -/
theorem c4_mime_selection (ct url : String)
    (resolve : String → String → String) (fetch : String → Option HttpResp)
    (baseUrl : String) (attrs : List (String × String)) (resp : HttpResp) :
    (strContains ct "image" = true → decideContentType (some ct) url = ct) ∧
    (decideContentType none url = "image/jpeg") ∧
    (strContains ct "image" = false → strEndsWith url ".png" = true →
      decideContentType (some ct) url = "image/png") ∧
    (strContains ct "image" = false → strEndsWith url ".png" = false →
      strEndsWith url ".gif" = true →
      decideContentType (some ct) url = "image/gif") ∧
    (strContains ct "image" = false → strEndsWith url ".png" = false →
      strEndsWith url ".gif" = false → strEndsWith url ".webp" = true →
      decideContentType (some ct) url = "image/webp") ∧
    (strContains ct "image" = false → strEndsWith url ".png" = false →
      strEndsWith url ".gif" = false → strEndsWith url ".webp" = false →
      decideContentType (some ct) url = "image/jpeg") ∧
    (truthy (pickSrc attrs) = true →
      fetch (resolve baseUrl ((pickSrc attrs).getD "")) = some resp →
      resp.contentType = some "image/png" →
      ∃ a', processImgAttrs resolve fetch baseUrl attrs = some a' ∧
        getAttr "src" a' = some ("data:image/png;base64,"
          ++ String.mk (base64Encode resp.body))) := by
  refine ⟨?_, ?_, ?_, ?_, ?_, ?_, ?_⟩
  · intro h; simp [decideContentType, h]
  · have hjpeg : strContains "image/jpeg" "image" = true := by decide
    simp [decideContentType, hjpeg]
  · intro h1 h2; simp [decideContentType, h1, h2]
  · intro h1 h2 h3; simp [decideContentType, h1, h2, h3]
  · intro h1 h2 h3 h4; simp [decideContentType, h1, h2, h3, h4]
  · intro h1 h2 h3 h4; simp [decideContentType, h1, h2, h3, h4]
  · intro hsrc hf hct
    have hdec : decideContentType resp.contentType
        (resolve baseUrl ((pickSrc attrs).getD "")) = "image/png" := by
      have himg : strContains "image/png" "image" = true := by decide
      rw [hct]
      simp [decideContentType, himg]
    have heq : processImgAttrs resolve fetch baseUrl attrs
        = some (delIfTruthy "srcset" (delIfTruthy "data-src"
            (delIfTruthy "loading" (setAttr "src"
              ("data:" ++ decideContentType resp.contentType
                  (resolve baseUrl ((pickSrc attrs).getD ""))
                ++ ";base64," ++ String.mk (base64Encode resp.body))
              attrs)))) := by
      simp only [processImgAttrs]
      rw [hsrc, hf]
      simp
    rw [hdec] at heq
    refine ⟨_, heq, ?_⟩
    rw [getAttr_delIfTruthy_ne _ _ (by decide),
      getAttr_delIfTruthy_ne _ _ (by decide),
      getAttr_delIfTruthy_ne _ _ (by decide),
      getAttr_setAttr_same]
    have hpre : (("data:" ++ "image/png") ++ ";base64," : String)
        = "data:image/png;base64," := by decide
    rw [hpre]

/-- Witness for C4 (amended) at a concrete image: declared `image/png`
yields a `data:image/png;base64,` source. -/
theorem c4_witness :
    truthy (pickSrc [("src", "a.png")]) = true ∧
    (∃ a', processImgAttrs idResolve (fun _ => some ⟨some "image/png", [77, 97, 110]⟩)
        "http://x" [("src", "a.png")] = some a' ∧
      getAttr "src" a' = some ("data:image/png;base64,"
        ++ String.mk (base64Encode [77, 97, 110]))) :=
  ⟨by decide,
   (c4_mime_selection "image/png" "a.png" idResolve
     (fun _ => some ⟨some "image/png", [77, 97, 110]⟩) "http://x"
     [("src", "a.png")] ⟨some "image/png", [77, 97, 110]⟩).2.2.2.2.2.2
     (by decide) (by decide) (by decide)⟩

/-- C5: per-image failure containment: an image whose processing fails
(fetch error, missing source, any per-image error — the loop body returns
removal) is deleted in place, and the siblings before and after it are
processed exactly as they would be without it; processing never aborts and
nothing escapes `preserve_inline_images`. -/
theorem c5_failure_containment (resolve : String → String → String)
    (fetch : String → Option HttpResp) (baseUrl : String)
    (pre post : NodeList) (attrs : List (String × String)) (cs : NodeList)
    (hfail : processImgAttrs resolve fetch baseUrl attrs = none) :
    preserve_inline_images resolve fetch baseUrl
      (NodeList.append pre (.cons (.elem "img" attrs cs) post))
      = NodeList.append (preserve_inline_images resolve fetch baseUrl pre)
          (preserve_inline_images resolve fetch baseUrl post) := by
  unfold preserve_inline_images
  rw [inlineImagesL_append]
  congr 1
  simp only [inlineImagesL, inlineImagesN, hfail]
  rfl

/-- Witness for C5: the failing middle image disappears and its neighbors
are processed normally. -/
theorem c5_witness :
    processImgAttrs idResolve
      (fun u => if u == "bad" then none else some ⟨some "image/png", [2]⟩)
      "http://x" [("src", "bad")] = none ∧
    preserve_inline_images idResolve
      (fun u => if u == "bad" then none else some ⟨some "image/png", [2]⟩)
      "http://x"
      (NodeList.append (.cons (.elem "img" [("src", "a.png")] .nil) .nil)
        (.cons (.elem "img" [("src", "bad")] .nil)
          (.cons (.elem "img" [("src", "c.png")] .nil) .nil)))
      = NodeList.append
          (preserve_inline_images idResolve
            (fun u => if u == "bad" then none else some ⟨some "image/png", [2]⟩)
            "http://x" (.cons (.elem "img" [("src", "a.png")] .nil) .nil))
          (preserve_inline_images idResolve
            (fun u => if u == "bad" then none else some ⟨some "image/png", [2]⟩)
            "http://x" (.cons (.elem "img" [("src", "c.png")] .nil) .nil)) :=
  ⟨by decide,
   c5_failure_containment idResolve
     (fun u => if u == "bad" then none else some ⟨some "image/png", [2]⟩)
     "http://x" (.cons (.elem "img" [("src", "a.png")] .nil) .nil)
     (.cons (.elem "img" [("src", "c.png")] .nil) .nil)
     [("src", "bad")] .nil (by decide)⟩

/-- C6: idempotence: applying the Sanitizer
(`remove_ads_and_banners` then `exclude_sidebars_and_comments`) a second
time to its own output changes nothing, and likewise for the
ReferenceTrimmer (container removal plus heading-triggered truncation). -/
theorem c6_idempotence (d : NodeList) :
    sanitizer (sanitizer d) = sanitizer d ∧
    reference_trimmer (reference_trimmer d) = reference_trimmer d := by
  constructor
  · rw [sanitizer_eq_sweep d, sanitizer_eq_sweep,
      sweepAll_idem _ sanitizerPreds_shallow d]
  · unfold reference_trimmer
    rw [sweepAll_clean referencePreds (truncL (sweepAll referencePreds d))
      (fun p hp => anyNodeL_truncL p (referencePreds_shallow p hp) _
        (sweepAll_clears _ referencePreds_shallow p hp d)),
      truncL_idem]

/-- C7: a malformed input URL (no usable http(s) scheme) is surfaced to
the caller of `/convert` as a client-facing 400 failure — raised while
`requests` prepares the request inside `fetch_html` — before any network
call is made (the network trace count of the pipeline is zero). -/
theorem c7_validation_before_network (net : String → FetchOutcome)
    (parseHtml : String → NodeList) (resolve : String → String → String)
    (fetch : String → Option HttpResp) (url : String)
    (h1 : strStartsWith url "http://" = false)
    (h2 : strStartsWith url "https://" = false) :
    convert_to_pdf net parseHtml resolve fetch url
      = (.error ⟨400, "Failed to fetch URL: Invalid URL " ++ url⟩, 0) := by
  unfold convert_to_pdf fetch_html requestsGetPage
  rw [h1, h2]
  rfl

/-- Witness for C7: the scheme-less URL "notaurl" is rejected with 400 and
zero network calls. -/
theorem c7_witness :
    strStartsWith "notaurl" "http://" = false ∧
    convert_to_pdf (fun _ => .ok "<html></html>") (fun _ => .nil) idResolve
        (fun _ => none) "notaurl"
      = (.error ⟨400, "Failed to fetch URL: Invalid URL " ++ "notaurl"⟩, 0) :=
  ⟨by decide,
   c7_validation_before_network (fun _ => .ok "<html></html>") (fun _ => .nil)
     idResolve (fun _ => none) "notaurl" (by decide) (by decide)⟩

/-- C8: after the Sanitizer has run, no `script` and no `style` element
remains anywhere in the tree, regardless of any keyword pattern match. -/
theorem c8_no_script_style (d : NodeList) :
    anyNodeL (tagMatch "script") (sanitizer d) = false ∧
    anyNodeL (tagMatch "style") (sanitizer d) = false := by
  have hmem : scriptOrStyle ∈ adPreds ++ unwantedPreds :=
    List.mem_append_left _ (by simp [adPreds])
  have hclear : anyNodeL scriptOrStyle (sanitizer d) = false := by
    rw [sanitizer_eq_sweep d]
    exact sweepAll_clears _ sanitizerPreds_shallow scriptOrStyle hmem d
  constructor
  · exact anyNodeL_mono _ _ (fun n h => by simp [scriptOrStyle, h]) _ hclear
  · exact anyNodeL_mono _ _ (fun n h => by simp [scriptOrStyle, h]) _ hclear

/-- C9: the images that survive ImageInliner appear in the output in input
document order: for any document whose `img` elements are childless (as
`html.parser` always produces), the output image list is the in-order
`filterMap` of the per-image outcomes — the processing is sequential and
writes results back in place, so order never depends on fetch timing. -/
theorem c9_document_order (resolve : String → String → String)
    (fetch : String → Option HttpResp) (baseUrl : String) (d : NodeList)
    (hv : voidImgsL d = true) :
    imgListL (preserve_inline_images resolve fetch baseUrl d)
      = (imgListL d).filterMap (imgOutcome resolve fetch baseUrl) :=
  imgOrderL resolve fetch baseUrl d hv

/-- Witness for C9: three images where the second fails; the survivors
keep their original left-to-right order. -/
theorem c9_witness :
    voidImgsL (.cons (.elem "img" [("src", "a")] .nil)
      (.cons (.elem "img" [("src", "b")] .nil)
        (.cons (.elem "img" [("src", "c")] .nil) .nil))) = true ∧
    imgListL (preserve_inline_images idResolve
      (fun u => if u == "b" then none else some ⟨some "image/png", [3]⟩)
      "http://x"
      (.cons (.elem "img" [("src", "a")] .nil)
        (.cons (.elem "img" [("src", "b")] .nil)
          (.cons (.elem "img" [("src", "c")] .nil) .nil))))
      = (imgListL (.cons (.elem "img" [("src", "a")] .nil)
          (.cons (.elem "img" [("src", "b")] .nil)
            (.cons (.elem "img" [("src", "c")] .nil) .nil)))).filterMap
          (imgOutcome idResolve
            (fun u => if u == "b" then none else some ⟨some "image/png", [3]⟩)
            "http://x") ∧
    imgListL (preserve_inline_images idResolve
      (fun u => if u == "b" then none else some ⟨some "image/png", [3]⟩)
      "http://x"
      (.cons (.elem "img" [("src", "a")] .nil)
        (.cons (.elem "img" [("src", "b")] .nil)
          (.cons (.elem "img" [("src", "c")] .nil) .nil))))
      = [.elem "img" [("src", "data:image/png;base64,Aw==")] .nil,
         .elem "img" [("src", "data:image/png;base64,Aw==")] .nil] :=
  ⟨by decide,
   c9_document_order idResolve
     (fun u => if u == "b" then none else some ⟨some "image/png", [3]⟩)
     "http://x"
     (.cons (.elem "img" [("src", "a")] .nil)
       (.cons (.elem "img" [("src", "b")] .nil)
         (.cons (.elem "img" [("src", "c")] .nil) .nil))) (by decide),
   by decide⟩

/-- C10 (implicit): the ad pass matches class and id values by unanchored,
case-insensitive substring search, so after `remove_ads_and_banners` no
element whose class or id merely CONTAINS "ad" remains — in particular
elements classed `header`, `breadcrumb`, `shadow`, `read-more` or
`gradient` are removed even though they are not advertising-related. -/
theorem c10_ad_substring (d : NodeList) :
    anyNodeL (classMatch "ad") (remove_ads_and_banners d) = false ∧
    anyNodeL (idMatch "ad") (remove_ads_and_banners d) = false ∧
    remove_ads_and_banners exOverAd
      = .cons (.elem "p" [] (.cons (.text "body") .nil)) .nil := by
  refine ⟨?_, ?_, by decide⟩
  · exact sweepAll_clears adPreds adPreds_shallow (classMatch "ad")
      (by simp [adPreds, ad_patterns]) d
  · exact sweepAll_clears adPreds adPreds_shallow (idMatch "ad")
      (by simp [adPreds, ad_patterns]) d

end BlogToPdf
